import Mathlib

/-!
Verification development for `tools/inject_exif.py`: a batch tool that
injects Copyright/Artist/UserComment EXIF metadata into JPEG files.

The Python program is shallowly embedded below.  Pure computations
(SHA-256 fingerprinting, hex encoding, UTF-8 encoding, the glob filename
filter, the dictionary updates) are translated directly into executable
Lean functions.  External library calls (`piexif.load`, `piexif.dump`,
`PIL.Image.open`, `Image.save`) and the filesystem are modelled as an
explicit environment of fallible functions (`Except`) and a path-indexed
store, so that exception paths of the source are explicit `match` arms.
-/

/-! ## Bytes and 32-bit arithmetic (Python ints are unbounded; SHA-256
    works mod 2^32) -/

/-- Bytes are natural numbers below 256; byte strings are lists. -/
abbrev Bytes := List Nat

/-- Truncate to a 32-bit word, as SHA-256 does after each addition. -/
def w32 (n : Nat) : Nat := n % 4294967296

/-- Rotate a 32-bit word right by `n` places. -/
def rotr (n x : Nat) : Nat := x / 2 ^ n + x % 2 ^ n * 2 ^ (32 - n)

/-- Logical shift right. -/
def shr (n x : Nat) : Nat := x / 2 ^ n

/-! ## SHA-256 (the `hashlib.sha256` call), translated from FIPS 180-4;
    fully executable so fingerprints of concrete files evaluate. -/

def sha256K : List Nat :=
  [ 1116352408, 1899447441, 3049323471, 3921009573, 961987163, 1508970993,
   2453635748, 2870763221, 3624381080, 310598401, 607225278, 1426881987,
   1925078388, 2162078206, 2614888103, 3248222580, 3835390401, 4022224774,
   264347078, 604807628, 770255983, 1249150122, 1555081692, 1996064986,
   2554220882, 2821834349, 2952996808, 3210313671, 3336571891, 3584528711,
   113926993, 338241895, 666307205, 773529912, 1294757372, 1396182291,
   1695183700, 1986661051, 2177026350, 2456956037, 2730485921, 2820302411,
   3259730800, 3345764771, 3516065817, 3600352804, 4094571909, 275423344,
   430227734, 506948616, 659060556, 883997877, 958139571, 1322822218,
   1537002063, 1747873779, 1955562222, 2024104815, 2227730452, 2361852424,
   2428436474, 2756734187, 3204031479, 3329325298]

def sha256H0 : List Nat :=
  [ 1779033703, 3144134277, 1013904242, 2773480762, 1359893119, 2600822924,
   528734635, 1541459225]

/-- Big-endian byte decomposition of `n` into `len` bytes. -/
def toBytesBE (len n : Nat) : Bytes :=
  (List.range len).map (fun i => n / 2 ^ (8 * (len - 1 - i)) % 256)

/-- SHA-256 message padding: append 0x80, zeros, and the 64-bit
    big-endian bit length, reaching a multiple of 64 bytes. -/
def sha256Pad (msg : Bytes) : Bytes :=
  msg ++ 0x80 :: List.replicate ((119 - msg.length % 64) % 64) 0
      ++ toBytesBE 8 (msg.length * 8)

/-- Split a byte string into 64-byte blocks (`fuel` bounds the number of
    blocks; structural recursion so concrete digests evaluate). -/
def chunksAux : Nat → Bytes → List Bytes
  | 0, _ => []
  | _, [] => []
  | fuel + 1, a :: l => ((a :: l).take 64) :: chunksAux fuel ((a :: l).drop 64)

/-- Split a byte string into 64-byte blocks. -/
def chunks64 (l : Bytes) : List Bytes := chunksAux l.length l

/-- Assemble big-endian 32-bit words from bytes. -/
def bytesToWords : Bytes → List Nat
  | b0 :: b1 :: b2 :: b3 :: rest =>
      (((b0 * 256 + b1) * 256 + b2) * 256 + b3) :: bytesToWords rest
  | _ => []

def smallSigma0 (x : Nat) : Nat := rotr 7 x ^^^ rotr 18 x ^^^ shr 3 x

def smallSigma1 (x : Nat) : Nat := rotr 17 x ^^^ rotr 19 x ^^^ shr 10 x

def bigSigma0 (x : Nat) : Nat := rotr 2 x ^^^ rotr 13 x ^^^ rotr 22 x

def bigSigma1 (x : Nat) : Nat := rotr 6 x ^^^ rotr 11 x ^^^ rotr 25 x

def chFun (x y z : Nat) : Nat := x &&& y ^^^ ((x ^^^ 0xffffffff) &&& z)

def majFun (x y z : Nat) : Nat := x &&& y ^^^ (x &&& z) ^^^ (y &&& z)

/-- One message-schedule extension step, on the reversed schedule
    (most recent word first). -/
def schedStep (wrev : List Nat) : List Nat :=
  w32 (smallSigma1 (wrev.getD 1 0) + wrev.getD 6 0
        + smallSigma0 (wrev.getD 14 0) + wrev.getD 15 0) :: wrev

/-- Iterate a function `n` times. -/
def iterN {α : Type} (f : α → α) : Nat → α → α
  | 0, a => a
  | n + 1, a => iterN f n (f a)

/-- The 64-word message schedule of one block. -/
def sha256Schedule (w16 : List Nat) : List Nat :=
  (iterN schedStep 48 w16.reverse).reverse

/-- One SHA-256 round on the 8-word working state. -/
def sha256Round (st : List Nat) (wk : Nat × Nat) : List Nat :=
  match st with
  | [a, b, c, d, e, f, g, h] =>
      let t1 := w32 (h + bigSigma1 e + chFun e f g + wk.2 + wk.1)
      let t2 := w32 (bigSigma0 a + majFun a b c)
      [w32 (t1 + t2), a, b, c, w32 (d + t1), e, f, g]
  | st => st

/-- Compress one 64-byte block into the hash state. -/
def sha256Compress (h : List Nat) (block : Bytes) : List Nat :=
  let st := ((sha256Schedule (bytesToWords block)).zip sha256K).foldl sha256Round h
  (h.zip st).map (fun p => w32 (p.1 + p.2))

/-- The SHA-256 digest (32 bytes) of a byte string. -/
def sha256 (msg : Bytes) : Bytes :=
  (((chunks64 (sha256Pad msg)).foldl sha256Compress sha256H0).map
    (toBytesBE 4)).flatten

/-! ## Hex digest (`.hexdigest()`) -/

/-- The lowercase hexadecimal alphabet. -/
def hexAlphabet : List Char := "0123456789abcdef".toList

/-- Hex character of a nibble (out-of-range defaults inside the alphabet). -/
def hexChar (n : Nat) : Char := hexAlphabet.getD n '0'

/-- Lowercase hex encoding of a byte string, as `hexdigest` returns it. -/
def hexDigits (bs : Bytes) : List Char :=
  bs.flatMap (fun b => [hexChar (b / 16), hexChar (b % 16)])

/-! ## UTF-8 encoding (`.encode('utf-8')`) -/

/-- UTF-8 encoding of one code point. -/
def utf8Char (c : Char) : Bytes :=
  let n := c.toNat
  if n < 128 then [n]
  else if n < 2048 then [192 + n / 64, 128 + n % 64]
  else if n < 65536 then [224 + n / 4096, 128 + n / 64 % 64, 128 + n % 64]
  else [240 + n / 262144, 128 + n / 4096 % 64, 128 + n / 64 % 64, 128 + n % 64]

/-- UTF-8 encoding of a string. -/
def utf8 (s : String) : Bytes := s.toList.flatMap utf8Char

/-! ## The filename glob (`PHOTOS_DIR.glob("*_hu_*.jpg")`) -/

/-- Try a continuation on every suffix of the string: the semantics of a
    `*` wildcard. -/
def starLoop (f : List Char → Bool) : List Char → Bool
  | [] => f []
  | c :: s => f (c :: s) || starLoop f s

/-- Unix-style glob matching for patterns built from literal characters
    and `*` (the only constructs in `"*_hu_*.jpg"`). -/
def globMatch : List Char → List Char → Bool
  | [], s => s.isEmpty
  | p :: ps, s =>
    if p = '*' then starLoop (fun t => globMatch ps t) s
    else
      match s with
      | [] => false
      | c :: s' => (p == c) && globMatch ps s'

/-- The hard-coded filename pattern. -/
def globPattern : String := "*_hu_*.jpg"

/-- Whether a filename is selected by the batch driver's glob. -/
def matchesPattern (name : String) : Bool :=
  globMatch globPattern.toList name.toList

/-! ## Configuration constants -/

def PHOTOS_DIR : String := "docs/photography"

def COPYRIGHT : String := "© 2026 Chemachin"

def CREATOR : String := "Chemachin"

/-- Tag number `piexif.ImageIFD.Copyright` (0x8298). -/
def CopyrightTag : Nat := 33432

/-- Tag number `piexif.ImageIFD.Artist` (0x013B). -/
def ArtistTag : Nat := 315

/-- Tag number `piexif.ExifIFD.UserComment` (0x9286). -/
def UserCommentTag : Nat := 37510

/-! ## The metadata container (`exif_dict`) -/

/-- A tag table: finite map from tag number to raw value bytes,
    modelled as a function like a Python dict. -/
abbrev TagMap := Nat → Option Bytes

/-- Python `d[k] = v` on a tag table. -/
def setKey (m : TagMap) (k : Nat) (v : Bytes) : TagMap :=
  fun k' => if k' = k then some v else m k'

/-- The four-namespace EXIF container
    `{"0th": .., "Exif": .., "GPS": .., "1st": ..}`. -/
structure ExifDict where
  zeroth : TagMap
  exifSeg : TagMap
  gps : TagMap
  firstIFD : TagMap

/-- The namespaces of the container. -/
inductive IFD where
  | zeroth
  | exifSeg
  | gps
  | firstIFD
deriving DecidableEq

/-- Field lookup across namespaces. -/
def ExifDict.get (d : ExifDict) : IFD → Nat → Option Bytes
  | .zeroth => d.zeroth
  | .exifSeg => d.exifSeg
  | .gps => d.gps
  | .firstIFD => d.firstIFD

/-- The fresh container `{"0th": {}, "Exif": {}, "GPS": {}, "1st": {}}`. -/
def emptyExif : ExifDict :=
  { zeroth := fun _ => none, exifSeg := fun _ => none,
    gps := fun _ => none, firstIFD := fun _ => none }

/-! ## Filesystem and external libraries -/

/-- The filesystem: path to byte content; `none` means reading raises. -/
abbrev FS := String → Option Bytes

/-- Python `fs` update after a whole-file rewrite. -/
def updateFS (fs : FS) (p : String) (b : Bytes) : FS :=
  fun q => if q = p then some b else fs q

/-- External library behavior (piexif and PIL), supplied as an
    environment of fallible functions; `Except.error` is a raised
    exception carrying `str(e)`.  Decoded images are abstract handles. -/
structure Env where
  parseExif : Bytes → Except String ExifDict
  dump : ExifDict → Except String Bytes
  imageOpen : Bytes → Except String Nat
  save : Nat → Nat → Bytes → Except String Bytes
  partialBytes : Option Bytes

/-- Message `str(e)` of the exception raised by `open(path, 'rb')` on a
    missing or unreadable file. -/
def readErr (path : String) : String :=
  "[Errno 2] No such file or directory: " ++ path

/-! ## `inject_exif` -/

/-- The inner `try: piexif.load(...) except: empty dict` step: load the
    container from the file, swallowing every exception. -/
def loadDict (env : Env) (fs : FS) (path : String) : ExifDict :=
  match fs path with
  | none => emptyExif
  | some b =>
    match env.parseExif b with
    | .ok d => d
    | .error _ => emptyExif

/-- The identifier `f"sha256:{hashlib.sha256(f.read()).hexdigest()[:16]}"`. -/
def imageId (content : Bytes) : String :=
  "sha256:" ++ String.mk ((hexDigits (sha256 content)).take 16)

/-- The three dict assignments: Copyright, Artist, UserComment. -/
def injectFields (d : ExifDict) (id : String) : ExifDict :=
  { d with
    zeroth := setKey (setKey d.zeroth CopyrightTag (utf8 COPYRIGHT))
                ArtistTag (utf8 CREATOR),
    exifSeg := setKey d.exifSeg UserCommentTag (utf8 id) }

/-- The body of `inject_exif` after the container is in hand: hash the
    raw bytes, set the three fields, dump, decode, re-encode and write
    back.  Each `Except.error` arm is an exception caught by the outer
    `try`, returning `(False, str(e))`. -/
def injectWith (env : Env) (fs : FS) (path : String) (d : ExifDict) :
    (Bool × String) × FS :=
  match fs path with
  | none => ((false, readErr path), fs)
  | some content =>
    let id := imageId content
    let d2 := injectFields d id
    match env.dump d2 with
    | .error e => ((false, e), fs)
    | .ok exifBytes =>
      match env.imageOpen content with
      | .error e => ((false, e), fs)
      | .ok img =>
        match env.save img 70 exifBytes with
        | .ok newBytes => ((true, id), updateFS fs path newBytes)
        | .error e =>
          ((false, e),
           match env.partialBytes with
           | none => fs
           | some b => updateFS fs path b)

/-- Function `inject_exif(image_path)`: returns `(ok, identifier-or-error)` and
    the filesystem after the call. -/
def inject_exif (env : Env) (fs : FS) (path : String) :
    (Bool × String) × FS :=
  injectWith env fs path (loadDict env fs path)

/-! ## The batch driver (`main`) -/

/-- One console line of the run's report. -/
inductive OutLine where
  | dirNotFound (dir : String)
  | noImages (dir : String)
  | found (n : Nat)
  | fileOk (idx total : Nat) (name id : String)
  | fileErr (idx total : Nat) (name err : String)
  | summary (succ total failed : Nat)
deriving DecidableEq

/-- Full path of a matched file. -/
def imgPath (name : String) : String := PHOTOS_DIR ++ "/" ++ name

/-- Lexicographic comparison of character lists by code point: the
    comparison Python's `sorted` uses on the path strings. -/
def lexLe : List Char → List Char → Bool
  | [], _ => true
  | _ :: _, [] => false
  | a :: as, b :: bs =>
    decide (a.toNat < b.toNat) || (a == b && lexLe as bs)

/-- Lexicographic order on filenames. -/
def strLe (a b : String) : Prop := lexLe a.toList b.toList = true

instance : DecidableRel strLe := fun _ _ =>
  inferInstanceAs (Decidable (_ = true))

instance : IsTotal String strLe := by
  constructor
  intro a b
  show lexLe a.toList b.toList = true ∨ lexLe b.toList a.toList = true
  generalize a.toList = s
  generalize b.toList = t
  induction s generalizing t with
  | nil => left; simp [lexLe]
  | cons x xs ih =>
    cases t with
    | nil => right; simp [lexLe]
    | cons y ys =>
      rcases Nat.lt_trichotomy x.toNat y.toNat with h | h | h
      · left; simp [lexLe, h]
      · have hxy : x = y := Char.eq_of_val_eq (UInt32.ext h)
        subst hxy
        rcases ih ys with h' | h'
        · left; simp [lexLe, h']
        · right; simp [lexLe, h']
      · right; simp [lexLe, h]

instance : IsTrans String strLe := by
  constructor
  intro a b c
  show lexLe a.toList b.toList = true → lexLe b.toList c.toList = true →
    lexLe a.toList c.toList = true
  generalize a.toList = s
  generalize b.toList = t
  generalize c.toList = u
  induction s generalizing t u with
  | nil => intro _ _; simp [lexLe]
  | cons x xs ih =>
    intro h1 h2
    cases t with
    | nil => simp [lexLe] at h1
    | cons y ys =>
      cases u with
      | nil => simp [lexLe] at h2
      | cons z zs =>
        simp only [lexLe, Bool.or_eq_true, Bool.and_eq_true, decide_eq_true_eq,
          beq_iff_eq] at h1 h2 ⊢
        rcases h1 with h1 | ⟨rfl, h1⟩ <;> rcases h2 with h2 | ⟨rfl, h2⟩
        · left; omega
        · left; exact h1
        · left; exact h2
        · right; exact ⟨rfl, ih _ _ h1 h2⟩

/-- The sorted matched filenames `sorted(PHOTOS_DIR.glob("*_hu_*.jpg"))`
    given the directory listing. -/
def jpgFilesOf (listing : List String) : List String :=
  (listing.filter matchesPattern).insertionSort strLe

/-- The `for idx, image_path in enumerate(jpg_files, 1)` loop: produces
    the per-file lines, the two counters and the final filesystem. -/
def runLoop (env : Env) (total : Nat) :
    List String → Nat → Nat → Nat → FS → List OutLine × Nat × Nat × FS
  | [], _, succ, failed, fs => ([], succ, failed, fs)
  | name :: rest, idx, succ, failed, fs =>
    let r := inject_exif env fs (imgPath name)
    if r.1.1 then
      let rec' := runLoop env total rest (idx + 1) (succ + 1) failed r.2
      (OutLine.fileOk idx total name r.1.2 :: rec'.1, rec'.2)
    else
      let rec' := runLoop env total rest (idx + 1) succ (failed + 1) r.2
      (OutLine.fileErr idx total name r.1.2 :: rec'.1, rec'.2)

/-- Function `main()`: `dirExists` is whether `PHOTOS_DIR.exists()`, `listing`
    the directory's entries; returns the console report and the final
    filesystem. -/
def mainRun (env : Env) (dirExists : Bool) (listing : List String) (fs : FS) :
    List OutLine × FS :=
  if !dirExists then ([OutLine.dirNotFound PHOTOS_DIR], fs)
  else
    let jpgFiles := jpgFilesOf listing
    if jpgFiles.isEmpty then ([OutLine.noImages PHOTOS_DIR], fs)
    else
      let n := jpgFiles.length
      let r := runLoop env n jpgFiles 1 0 0 fs
      (OutLine.found n :: r.1 ++ [OutLine.summary r.2.1 n r.2.2.1], r.2.2.2)



/-- The shape of a per-file report line: a success or failure line
carrying this index, total and filename. -/
def lineFor (line : OutLine) (idx total : Nat) (name : String) : Prop :=
  (∃ id, line = OutLine.fileOk idx total name id) ∨
  (∃ err, line = OutLine.fileErr idx total name err)

/-- The per-file report line the loop prints for the outcome `r` of one
    `inject_exif` call: a success line carrying the returned identifier,
    or a failure line carrying the returned error detail. -/
def mkLine (idx total : Nat) (name : String) (r : Bool × String) : OutLine :=
  if r.1 then OutLine.fileOk idx total name r.2
  else OutLine.fileErr idx total name r.2

/-- The filesystem after the loop has processed the given files in
    order, each `inject_exif` call threading its writes to the next. -/
def fsAfter (env : Env) : List String → FS → FS
  | [], fs => fs
  | nm :: rest, fs => fsAfter env rest (inject_exif env fs (imgPath nm)).2

/-! ## Concrete environments and filesystems used to instantiate the
    theorems below on closed inputs -/

/-- An environment in which every library call succeeds. -/
def envOk : Env :=
  { parseExif := fun _ => .ok emptyExif, dump := fun _ => .ok [],
    imageOpen := fun _ => .ok 0, save := fun _ _ _ => .ok [0],
    partialBytes := none }

/-- An environment in which loading the metadata container always
    raises, while every other library call succeeds. -/
def envLoadFail : Env :=
  { envOk with parseExif := fun _ => .error "Invalid JPEG" }

/-- A container already holding an unrelated field (an orientation
    tag 274). -/
def dOrient : ExifDict :=
  { emptyExif with zeroth := setKey emptyExif.zeroth 274 [1] }

/-- An environment whose metadata load returns `dOrient`. -/
def envOrient : Env :=
  { envOk with parseExif := fun _ => Except.ok dOrient }

/-- A filesystem holding one empty file at the path of `a_hu_x.jpg`. -/
def fsA : FS := fun p => if p = imgPath "a_hu_x.jpg" then some [] else none

/-! ## Characterizing the glob -/

theorem starLoop_eq_true (f : List Char → Bool) (s : List Char) :
    starLoop f s = true ↔ ∃ a b, s = a ++ b ∧ f b = true := by
  induction s with
  | nil =>
    constructor
    · intro h; exact ⟨[], [], rfl, h⟩
    · rintro ⟨a, b, hab, hf⟩
      rcases List.append_eq_nil.mp hab.symm with ⟨rfl, rfl⟩
      exact hf
  | cons c s ih =>
    simp only [starLoop, Bool.or_eq_true, ih]
    constructor
    · rintro (h | ⟨a, b, rfl, hf⟩)
      · exact ⟨[], c :: s, rfl, h⟩
      · exact ⟨c :: a, b, rfl, hf⟩
    · rintro ⟨a, b, hab, hf⟩
      cases a with
      | nil => left; rw [List.nil_append] at hab; rw [hab]; exact hf
      | cons a' as =>
        right
        rw [List.cons_append] at hab
        injection hab with h1 h2
        exact ⟨as, b, h2, hf⟩

theorem globMatch_nil_pattern (s : List Char) :
    globMatch [] s = true ↔ s = [] := by
  cases s <;> simp [globMatch]

theorem globMatch_star (ps : List Char) (s : List Char) :
    globMatch ('*' :: ps) s = true ↔
      ∃ a b, s = a ++ b ∧ globMatch ps b = true := by
  show (if '*' = '*' then starLoop (fun t => globMatch ps t) s
        else _) = true ↔ _
  rw [if_pos rfl, starLoop_eq_true]

theorem globMatch_lit (c : Char) (hc : c ≠ '*') (ps : List Char)
    (s : List Char) :
    globMatch (c :: ps) s = true ↔
      ∃ t, s = c :: t ∧ globMatch ps t = true := by
  cases s with
  | nil => simp [globMatch, hc]
  | cons d s' =>
    show (if c = '*' then _ else (c == d) && globMatch ps s') = true ↔ _
    rw [if_neg hc]
    simp only [Bool.and_eq_true, beq_iff_eq]
    constructor
    · rintro ⟨rfl, h⟩; exact ⟨s', rfl, h⟩
    · rintro ⟨t, ht, h⟩
      injection ht with h1 h2
      exact ⟨h1.symm, h2 ▸ h⟩

theorem globMatch_lits (l : List Char) (hl : ∀ c ∈ l, c ≠ '*')
    (ps : List Char) (s : List Char) :
    globMatch (l ++ ps) s = true ↔
      ∃ t, s = l ++ t ∧ globMatch ps t = true := by
  induction l generalizing s with
  | nil => simp
  | cons c l ih =>
    rw [List.cons_append,
      globMatch_lit c (hl c (List.mem_cons_self c l)) (l ++ ps) s]
    constructor
    · rintro ⟨t, rfl, h⟩
      rcases (ih (fun d hd => hl d (List.mem_cons_of_mem c hd)) t).mp h
        with ⟨u, rfl, hu⟩
      exact ⟨u, rfl, hu⟩
    · rintro ⟨t, rfl, h⟩
      exact ⟨l ++ t, rfl,
        (ih (fun d hd => hl d (List.mem_cons_of_mem c hd)) (l ++ t)).mpr
          ⟨t, rfl, h⟩⟩

theorem globMatch_pattern (s : List Char) :
    globMatch globPattern.toList s = true ↔
      ∃ a b, s = a ++ "_hu_".toList ++ b ++ ".jpg".toList := by
  have hpat : globPattern.toList =
      '*' :: ("_hu_".toList ++ ('*' :: (".jpg".toList ++ []))) := by rfl
  rw [hpat, globMatch_star]
  constructor
  · rintro ⟨a, b, rfl, hb⟩
    rcases (globMatch_lits "_hu_".toList (by decide) _ b).mp hb
      with ⟨t, rfl, ht⟩
    rcases (globMatch_star _ t).mp ht with ⟨u, v, rfl, hv⟩
    rcases (globMatch_lits ".jpg".toList (by decide) [] v).mp hv
      with ⟨w, rfl, hw⟩
    rcases (globMatch_nil_pattern w).mp hw with rfl
    exact ⟨a, u, by simp⟩
  · rintro ⟨a, b, rfl⟩
    refine ⟨a, "_hu_".toList ++ b ++ ".jpg".toList, by simp, ?_⟩
    refine (globMatch_lits "_hu_".toList (by decide) _ _).mpr
      ⟨b ++ ".jpg".toList, by simp, ?_⟩
    refine (globMatch_star _ _).mpr ⟨b, ".jpg".toList ++ [], by simp, ?_⟩
    exact (globMatch_lits ".jpg".toList (by decide) [] _).mpr
      ⟨[], by simp, rfl⟩

theorem decomp_of_parts (s : List Char)
    (h1 : ∃ u v, s = u ++ "_hu_".toList ++ v)
    (h2 : ∃ w, s = w ++ ".jpg".toList) :
    ∃ a b, s = a ++ "_hu_".toList ++ b ++ ".jpg".toList := by
  rcases h1 with ⟨u, v, rfl⟩
  rcases h2 with ⟨w, hw⟩
  by_cases hv : 4 ≤ v.length
  · have hsv : v <:+ u ++ "_hu_".toList ++ v := ⟨u ++ "_hu_".toList, by simp⟩
    have hse : (".jpg".toList : List Char) <:+ u ++ "_hu_".toList ++ v :=
      ⟨w, hw.symm⟩
    have hj : (".jpg".toList : List Char) <:+ v := by
      rcases List.suffix_or_suffix_of_suffix hse hsv with h | h
      · exact h
      · have hlen : v.length = (".jpg".toList : List Char).length :=
          le_antisymm h.length_le (by simpa using hv)
        rw [h.eq_of_length hlen]
    rcases hj with ⟨b, rfl⟩
    exact ⟨u, b, by simp⟩
  · exfalso
    have hmv : ("_hu_".toList ++ v : List Char) <:+ u ++ "_hu_".toList ++ v :=
      ⟨u, by simp⟩
    have hse : (".jpg".toList : List Char) <:+ u ++ "_hu_".toList ++ v :=
      ⟨w, hw.symm⟩
    have hj : (".jpg".toList : List Char) <:+ "_hu_".toList ++ v := by
      rcases List.suffix_or_suffix_of_suffix hse hmv with h | h
      · exact h
      · have hlen2 : ("_hu_".toList ++ v : List Char).length =
            (".jpg".toList : List Char).length :=
          le_antisymm (by simpa using h.length_le) (by simp)
        have heq := h.eq_of_length hlen2
        rw [← heq]
    rcases hj with ⟨x, hx⟩
    have hxlen : x.length = v.length := by
      have := congrArg List.length hx
      simp at this
      omega
    have hx3 : x.length < 4 := by omega
    rcases x with _ | ⟨c1, _ | ⟨c2, _ | ⟨c3, _ | ⟨c4, x⟩⟩⟩⟩
    · simp at hx
    · simp at hx
    · simp at hx
    · simp at hx
    · simp only [List.length_cons] at hxlen
      omega

/-- C10: the driver's filename filter selects exactly the names that
contain the literal infix `_hu_` and end in the literal lowercase
extension `.jpg`; a name with a variant extension such as `.JPG` or
`.jpeg`, or lacking the infix, never matches. -/
theorem matchesPattern_iff (name : String) :
    matchesPattern name = true ↔
      ((∃ u v, name.toList = u ++ "_hu_".toList ++ v) ∧
       (∃ w, name.toList = w ++ ".jpg".toList)) := by
  unfold matchesPattern
  rw [globMatch_pattern]
  constructor
  · rintro ⟨a, b, h⟩
    exact ⟨⟨a, b ++ ".jpg".toList, by rw [h]; simp [List.append_assoc]⟩,
      ⟨a ++ "_hu_".toList ++ b, by rw [h]⟩⟩
  · rintro ⟨h1, h2⟩
    exact decomp_of_parts name.toList h1 h2

/-! ## Shape of the digest and of the hex identifier -/

theorem sha256Round_length (st : List Nat) (wk : Nat × Nat) :
    (sha256Round st wk).length = st.length := by
  rcases st with _ | ⟨a, _ | ⟨b, _ | ⟨c, _ | ⟨d, _ | ⟨e, _ | ⟨f, _ |
    ⟨g, _ | ⟨h, _ | t⟩⟩⟩⟩⟩⟩⟩⟩ <;> rfl

theorem foldl_round_length (l : List (Nat × Nat)) (st : List Nat) :
    (l.foldl sha256Round st).length = st.length := by
  induction l generalizing st with
  | nil => rfl
  | cons x l ih => rw [List.foldl_cons, ih, sha256Round_length]

theorem sha256Compress_length (h : List Nat) (b : Bytes)
    (hh : h.length = 8) : (sha256Compress h b).length = 8 := by
  unfold sha256Compress
  simp [List.length_zip, foldl_round_length, hh]

theorem foldl_compress_length (blocks : List Bytes) (h : List Nat)
    (hh : h.length = 8) : (blocks.foldl sha256Compress h).length = 8 := by
  induction blocks generalizing h with
  | nil => exact hh
  | cons b bs ih => rw [List.foldl_cons]; exact ih _ (sha256Compress_length _ _ hh)

theorem toBytesBE_length (len n : Nat) : (toBytesBE len n).length = len := by
  simp [toBytesBE]

theorem flatten_length_const (L : List (List Nat)) (k : Nat)
    (hL : ∀ x ∈ L, x.length = k) : L.flatten.length = k * L.length := by
  induction L with
  | nil => simp
  | cons x L ih =>
    simp only [List.flatten_cons, List.length_append, List.length_cons]
    rw [hL x (List.mem_cons_self x L),
      ih (fun y hy => hL y (List.mem_cons_of_mem x hy))]
    ring

theorem sha256_length (msg : Bytes) : (sha256 msg).length = 32 := by
  unfold sha256
  rw [flatten_length_const _ 4]
  · rw [List.length_map, foldl_compress_length _ _ (by rfl)]
  · intro x hx
    rcases List.mem_map.mp hx with ⟨w, _, rfl⟩
    exact toBytesBE_length 4 w

theorem hexDigits_length (bs : Bytes) : (hexDigits bs).length = 2 * bs.length := by
  induction bs with
  | nil => rfl
  | cons b bs ih =>
    have h : hexDigits (b :: bs)
        = [hexChar (b / 16), hexChar (b % 16)] ++ hexDigits bs := by
      simp [hexDigits]
    rw [h, List.length_append, ih]
    simp
    ring

theorem hexChar_mem (n : Nat) : hexChar n ∈ hexAlphabet := by
  unfold hexChar
  by_cases h : n < hexAlphabet.length
  · rw [List.getD_eq_getElem _ _ h]
    exact List.getElem_mem h
  · rw [List.getD_eq_default _ _ (le_of_not_lt h)]
    decide

theorem hexDigits_mem (bs : Bytes) (c : Char) (hc : c ∈ hexDigits bs) :
    c ∈ hexAlphabet := by
  unfold hexDigits at hc
  rcases List.mem_flatMap.mp hc with ⟨b, _, hcb⟩
  simp only [List.mem_cons, List.not_mem_nil, or_false] at hcb
  rcases hcb with h | h <;> exact h ▸ hexChar_mem _

/-- C1: when `inject_exif` succeeds, the identifier it returns is
`"sha256:"` followed by the first 16 hex characters of the SHA-256
digest of the file's raw bytes as read before modification; that same
identifier is what the container's exchangeable-namespace UserComment
field is set to (UTF-8 encoded); and the suffix is exactly 16 lowercase
hexadecimal characters. -/
theorem inject_identifier_format (env : Env) (fs : FS) (path : String)
    (content : Bytes) (id : String)
    (hc : fs path = some content)
    (hok : (inject_exif env fs path).1 = (true, id)) :
    id = "sha256:" ++ String.mk ((hexDigits (sha256 content)).take 16) ∧
    (injectFields (loadDict env fs path) id).get IFD.exifSeg UserCommentTag
      = some (utf8 id) ∧
    ∃ tail, id.toList = "sha256:".toList ++ tail ∧ tail.length = 16 ∧
      ∀ c ∈ tail, c ∈ hexAlphabet := by
  have hid : id = imageId content := by
    simp only [inject_exif, injectWith, hc] at hok
    split at hok
    · simp at hok
    · split at hok
      · simp at hok
      · split at hok
        · simp at hok
          exact hok.symm
        · simp at hok
  subst hid
  refine ⟨rfl, ?_, ?_⟩
  · simp [injectFields, ExifDict.get, setKey]
  · refine ⟨(hexDigits (sha256 content)).take 16, rfl, ?_, ?_⟩
    · rw [List.length_take, hexDigits_length, sha256_length]
      omega
    · intro c hcmem
      exact hexDigits_mem _ c (List.take_subset _ _ hcmem)

/-- Witness for C1 at a concrete successful run: the empty file at
`docs/photography/a_hu_x.jpg` under `envOk`. -/
theorem inject_identifier_format_witness :
    "sha256:e3b0c44298fc1c14"
        = "sha256:" ++ String.mk ((hexDigits (sha256 [])).take 16) ∧
    (injectFields (loadDict envOk fsA (imgPath "a_hu_x.jpg"))
        "sha256:e3b0c44298fc1c14").get IFD.exifSeg UserCommentTag
      = some (utf8 "sha256:e3b0c44298fc1c14") ∧
    ∃ tail, ("sha256:e3b0c44298fc1c14" : String).toList
        = "sha256:".toList ++ tail ∧ tail.length = 16 ∧
      ∀ c ∈ tail, c ∈ hexAlphabet :=
  inject_identifier_format envOk fsA (imgPath "a_hu_x.jpg") [] _
    (by rfl) (by rfl)

/-! ## Field preservation and error handling of `inject_exif` -/

/-- C2: when the metadata container is successfully loaded from the
file, every field other than the primary-namespace Copyright and Artist
fields and the exchangeable-namespace UserComment field keeps its value
in the container that is serialized and written back. -/
theorem inject_preserves_fields (env : Env) (fs : FS) (path : String)
    (content : Bytes) (d : ExifDict)
    (hc : fs path = some content)
    (hp : env.parseExif content = Except.ok d) :
    loadDict env fs path = d ∧
    ∀ ns tag, ¬(ns = IFD.zeroth ∧ tag = CopyrightTag) →
      ¬(ns = IFD.zeroth ∧ tag = ArtistTag) →
      ¬(ns = IFD.exifSeg ∧ tag = UserCommentTag) →
      (injectFields d (imageId content)).get ns tag = d.get ns tag := by
  constructor
  · simp only [loadDict, hc, hp]
  · rintro ns tag h1 h2 h3
    have hcop : ns = IFD.zeroth → tag ≠ CopyrightTag :=
      fun hns htag => h1 ⟨hns, htag⟩
    have hart : ns = IFD.zeroth → tag ≠ ArtistTag :=
      fun hns htag => h2 ⟨hns, htag⟩
    have huc : ns = IFD.exifSeg → tag ≠ UserCommentTag :=
      fun hns htag => h3 ⟨hns, htag⟩
    cases ns with
    | zeroth =>
      simp only [injectFields, ExifDict.get, setKey]
      rw [if_neg (hart rfl), if_neg (hcop rfl)]
    | exifSeg =>
      simp only [injectFields, ExifDict.get, setKey]
      rw [if_neg (huc rfl)]
    | gps => rfl
    | firstIFD => rfl

/-- Witness for C2: a loaded container holding an orientation tag 274
keeps that tag's value through the injection. -/
theorem inject_preserves_fields_witness :
    loadDict envOrient fsA (imgPath "a_hu_x.jpg") = dOrient ∧
    (injectFields dOrient (imageId [])).get IFD.zeroth 274
      = dOrient.get IFD.zeroth 274 := by
  have h := inject_preserves_fields envOrient fsA (imgPath "a_hu_x.jpg")
    [] dOrient (by rfl) (by rfl)
  exact ⟨h.1, h.2 IFD.zeroth 274 (by decide) (by decide) (by decide)⟩

/-- C9: an exception in the metadata-load step is caught by the load
step's own handler and replaced by the empty four-namespace container,
so the run proceeds to the hashing step exactly as if an empty container
had been loaded; a load failure alone never produces a failure outcome. -/
theorem load_error_swallowed (env : Env) (fs : FS) (path : String)
    (content : Bytes) (e : String)
    (hc : fs path = some content)
    (he : env.parseExif content = Except.error e) :
    loadDict env fs path = emptyExif ∧
    inject_exif env fs path = injectWith env fs path emptyExif := by
  have h : loadDict env fs path = emptyExif := by
    simp only [loadDict, hc, he]
  exact ⟨h, by unfold inject_exif; rw [h]⟩

/-- Witness for C9: under `envLoadFail` the load raises, the container
defaults to empty, and the call still succeeds. -/
theorem load_error_swallowed_witness :
    loadDict envLoadFail fsA (imgPath "a_hu_x.jpg") = emptyExif ∧
    inject_exif envLoadFail fsA (imgPath "a_hu_x.jpg")
      = injectWith envLoadFail fsA (imgPath "a_hu_x.jpg") emptyExif ∧
    (inject_exif envLoadFail fsA (imgPath "a_hu_x.jpg")).1.1 = true := by
  have h := load_error_swallowed envLoadFail fsA (imgPath "a_hu_x.jpg")
    [] "Invalid JPEG" (by rfl) (by rfl)
  exact ⟨h.1, h.2, by decide⟩

/-- C3 counterexample: an exception while loading the metadata container
does not cause a failure outcome — under `envLoadFail` the load raises
on the existing file, yet `inject_exif` returns success. -/
theorem load_error_not_failure :
    envLoadFail.parseExif [] = Except.error "Invalid JPEG" ∧
    fsA (imgPath "a_hu_x.jpg") = some [] ∧
    (inject_exif envLoadFail fsA (imgPath "a_hu_x.jpg")).1.1 = true :=
  ⟨rfl, rfl, by decide⟩

/-- C3 (amended): exceptions in the metadata-load step are swallowed by
the load step's own handler (the run continues with the empty
container), while exceptions during hashing, serializing, decoding, or
saving are caught at per-file granularity and produce a failure outcome
carrying the exception's free-text message. -/
theorem per_file_error_handling (env : Env) (fs : FS) (path : String) :
    (∀ content e, fs path = some content →
       env.parseExif content = Except.error e →
       inject_exif env fs path = injectWith env fs path emptyExif) ∧
    (fs path = none →
       (inject_exif env fs path).1 = (false, readErr path)) ∧
    (∀ content e, fs path = some content →
       env.dump (injectFields (loadDict env fs path) (imageId content))
         = Except.error e →
       (inject_exif env fs path).1 = (false, e)) ∧
    (∀ content eb e, fs path = some content →
       env.dump (injectFields (loadDict env fs path) (imageId content))
         = Except.ok eb →
       env.imageOpen content = Except.error e →
       (inject_exif env fs path).1 = (false, e)) ∧
    (∀ content eb img e, fs path = some content →
       env.dump (injectFields (loadDict env fs path) (imageId content))
         = Except.ok eb →
       env.imageOpen content = Except.ok img →
       env.save img 70 eb = Except.error e →
       (inject_exif env fs path).1 = (false, e)) := by
  refine ⟨?_, ?_, ?_, ?_, ?_⟩
  · intro content e hc he
    have h : loadDict env fs path = emptyExif := by
      simp only [loadDict, hc, he]
    unfold inject_exif
    rw [h]
  · intro hn
    simp only [inject_exif, injectWith, hn]
  · intro content e hc hd
    simp only [inject_exif, injectWith, hc, hd]
  · intro content eb e hc hd ho
    simp only [inject_exif, injectWith, hc, hd, ho]
  · intro content eb img e hc hd ho hs
    simp only [inject_exif, injectWith, hc, hd, ho, hs]

/-- Witness for the amended C3: a missing file fails with the read
error, and a failing save fails with the save error. -/
theorem per_file_error_handling_witness :
    (inject_exif envOk fsA "docs/photography/missing_hu_.jpg").1
      = (false, readErr "docs/photography/missing_hu_.jpg") ∧
    (inject_exif envLoadFail fsA (imgPath "a_hu_x.jpg"))
      = injectWith envLoadFail fsA (imgPath "a_hu_x.jpg") emptyExif := by
  refine ⟨?_, ?_⟩
  · exact (per_file_error_handling envOk fsA
      "docs/photography/missing_hu_.jpg").2.1 (by rfl)
  · exact (per_file_error_handling envLoadFail fsA
      (imgPath "a_hu_x.jpg")).1 [] "Invalid JPEG" (by rfl) (by rfl)

/-- C4: a failure that arises before the save step — the read failing
during hashing, the serializer raising, or the decoder raising — leaves
the file's byte content on disk unchanged (a metadata-load failure never
ends the call by itself, so those are all the pre-save failures). -/
theorem pre_save_failure_keeps_file (env : Env) (fs : FS) (path : String) :
    (fs path = none →
       (inject_exif env fs path).1.1 = false ∧
       (inject_exif env fs path).2 = fs) ∧
    (∀ content e, fs path = some content →
       env.dump (injectFields (loadDict env fs path) (imageId content))
         = Except.error e →
       (inject_exif env fs path).1.1 = false ∧
       (inject_exif env fs path).2 = fs) ∧
    (∀ content eb e, fs path = some content →
       env.dump (injectFields (loadDict env fs path) (imageId content))
         = Except.ok eb →
       env.imageOpen content = Except.error e →
       (inject_exif env fs path).1.1 = false ∧
       (inject_exif env fs path).2 = fs) := by
  refine ⟨?_, ?_, ?_⟩
  · intro hn
    simp only [inject_exif, injectWith, hn]
    exact ⟨trivial, trivial⟩
  · intro content e hc hd
    simp only [inject_exif, injectWith, hc, hd]
    exact ⟨trivial, trivial⟩
  · intro content eb e hc hd ho
    simp only [inject_exif, injectWith, hc, hd, ho]
    exact ⟨trivial, trivial⟩

/-- Witness for C4: in an empty filesystem the call fails and the
filesystem is untouched. -/
theorem pre_save_failure_keeps_file_witness :
    (inject_exif envOk fsA "docs/photography/missing_hu_.jpg").1.1 = false ∧
    (inject_exif envOk fsA "docs/photography/missing_hu_.jpg").2 = fsA :=
  (pre_save_failure_keeps_file envOk fsA
    "docs/photography/missing_hu_.jpg").1 (by rfl)

/-! ## The batch loop -/

theorem runLoop_spec (env : Env) (total : Nat) (l : List String) :
    ∀ (idx succ failed : Nat) (fs : FS),
      (runLoop env total l idx succ failed fs).1.length = l.length ∧
      (runLoop env total l idx succ failed fs).2.1 +
          (runLoop env total l idx succ failed fs).2.2.1
        = succ + failed + l.length ∧
      succ ≤ (runLoop env total l idx succ failed fs).2.1 ∧
      failed ≤ (runLoop env total l idx succ failed fs).2.2.1 ∧
      (∀ i line name,
         (runLoop env total l idx succ failed fs).1.get? i = some line →
         l.get? i = some name → lineFor line (idx + i) total name) := by
  induction l with
  | nil =>
    intro idx succ failed fs
    refine ⟨rfl, by simp [runLoop], le_refl _, le_refl _, ?_⟩
    intro i line name h1 _
    simp [runLoop] at h1
  | cons nm rest ih =>
    intro idx succ failed fs
    by_cases hr : (inject_exif env fs (imgPath nm)).1.1 = true
    · obtain ⟨h1, h2, h3, h4, h5⟩ :=
        ih (idx + 1) (succ + 1) failed (inject_exif env fs (imgPath nm)).2
      have hstep : runLoop env total (nm :: rest) idx succ failed fs =
          (OutLine.fileOk idx total nm (inject_exif env fs (imgPath nm)).1.2 ::
             (runLoop env total rest (idx + 1) (succ + 1) failed
                (inject_exif env fs (imgPath nm)).2).1,
           runLoop env total rest (idx + 1) (succ + 1) failed
                (inject_exif env fs (imgPath nm)).2 |>.2) := by
        simp only [runLoop, hr, if_true]
      rw [hstep]
      refine ⟨by simp [h1], by simp; omega, by simp; omega, by simp; omega, ?_⟩
      intro i line name hl hn
      cases i with
      | zero =>
        simp only [List.get?_cons_zero, Option.some.injEq] at hl hn
        subst hl
        subst hn
        rw [Nat.add_zero]
        exact Or.inl ⟨_, rfl⟩
      | succ i =>
        simp only [List.get?_cons_succ] at hl hn
        have := h5 i line name hl hn
        have harith : idx + 1 + i = idx + (i + 1) := by omega
        rw [harith] at this
        exact this
    · obtain ⟨h1, h2, h3, h4, h5⟩ :=
        ih (idx + 1) succ (failed + 1) (inject_exif env fs (imgPath nm)).2
      have hstep : runLoop env total (nm :: rest) idx succ failed fs =
          (OutLine.fileErr idx total nm (inject_exif env fs (imgPath nm)).1.2 ::
             (runLoop env total rest (idx + 1) succ (failed + 1)
                (inject_exif env fs (imgPath nm)).2).1,
           runLoop env total rest (idx + 1) succ (failed + 1)
                (inject_exif env fs (imgPath nm)).2 |>.2) := by
        simp only [runLoop, hr, if_false, Bool.false_eq_true]
      rw [hstep]
      refine ⟨by simp [h1], by simp; omega, by simp; omega, by simp; omega, ?_⟩
      intro i line name hl hn
      cases i with
      | zero =>
        simp only [List.get?_cons_zero, Option.some.injEq] at hl hn
        subst hl
        subst hn
        rw [Nat.add_zero]
        exact Or.inr ⟨_, rfl⟩
      | succ i =>
        simp only [List.get?_cons_succ] at hl hn
        have := h5 i line name hl hn
        have harith : idx + 1 + i = idx + (i + 1) := by omega
        rw [harith] at this
        exact this

theorem runLoop_lines (env : Env) (total : Nat) (l : List String) :
    ∀ (idx succ failed : Nat) (fs : FS) (i : Nat) (line : OutLine)
      (name : String),
      (runLoop env total l idx succ failed fs).1.get? i = some line →
      l.get? i = some name →
      line = mkLine (idx + i) total name
        (inject_exif env (fsAfter env (l.take i) fs) (imgPath name)).1 := by
  induction l with
  | nil =>
    intro idx succ failed fs i line name h1 _
    simp [runLoop] at h1
  | cons nm rest ih =>
    intro idx succ failed fs i line name h1 h2
    by_cases hr : (inject_exif env fs (imgPath nm)).1.1 = true
    · have hstep : runLoop env total (nm :: rest) idx succ failed fs =
          (OutLine.fileOk idx total nm (inject_exif env fs (imgPath nm)).1.2 ::
             (runLoop env total rest (idx + 1) (succ + 1) failed
                (inject_exif env fs (imgPath nm)).2).1,
           runLoop env total rest (idx + 1) (succ + 1) failed
                (inject_exif env fs (imgPath nm)).2 |>.2) := by
        simp only [runLoop, hr, if_true]
      rw [hstep] at h1
      cases i with
      | zero =>
        simp only [List.get?_cons_zero, Option.some.injEq] at h1 h2
        subst h1
        subst h2
        rw [Nat.add_zero]
        simp [mkLine, fsAfter, hr]
      | succ i =>
        simp only [List.get?_cons_succ] at h1 h2
        have hrec := ih (idx + 1) (succ + 1) failed
          (inject_exif env fs (imgPath nm)).2 i line name h1 h2
        have harith : idx + 1 + i = idx + (i + 1) := by omega
        rw [harith] at hrec
        simpa [fsAfter] using hrec
    · have hstep : runLoop env total (nm :: rest) idx succ failed fs =
          (OutLine.fileErr idx total nm (inject_exif env fs (imgPath nm)).1.2 ::
             (runLoop env total rest (idx + 1) succ (failed + 1)
                (inject_exif env fs (imgPath nm)).2).1,
           runLoop env total rest (idx + 1) succ (failed + 1)
                (inject_exif env fs (imgPath nm)).2 |>.2) := by
        simp only [runLoop, hr, if_false, Bool.false_eq_true]
      rw [hstep] at h1
      cases i with
      | zero =>
        simp only [List.get?_cons_zero, Option.some.injEq] at h1 h2
        subst h1
        subst h2
        rw [Nat.add_zero]
        simp [mkLine, fsAfter, hr]
      | succ i =>
        simp only [List.get?_cons_succ] at h1 h2
        have hrec := ih (idx + 1) succ (failed + 1)
          (inject_exif env fs (imgPath nm)).2 i line name h1 h2
        have harith : idx + 1 + i = idx + (i + 1) := by omega
        rw [harith] at hrec
        simpa [fsAfter] using hrec

/-- C5: with at least one matched file, the driver sorts the matches
lexicographically, prints exactly one per-file line per matched filename
— the line built from the outcome of the `inject_exif` call at that
point, carrying the 1-based index, the total, the filename, and the
returned identifier on success or the returned error detail on failure
— never aborts on a per-file failure, and ends with a summary whose
success and failure counts add up to the total. -/
theorem batch_processing (env : Env) (listing : List String) (fs : FS)
    (hne : jpgFilesOf listing ≠ []) :
    List.Sorted strLe (jpgFilesOf listing) ∧
    (jpgFilesOf listing).Perm (listing.filter matchesPattern) ∧
    ∃ body succ failed fs',
      mainRun env true listing fs =
        (OutLine.found (jpgFilesOf listing).length :: body
            ++ [OutLine.summary succ (jpgFilesOf listing).length failed], fs') ∧
      body.length = (jpgFilesOf listing).length ∧
      succ + failed = (jpgFilesOf listing).length ∧
      (∀ i line name, body.get? i = some line →
         (jpgFilesOf listing).get? i = some name →
         line = mkLine (i + 1) (jpgFilesOf listing).length name
           (inject_exif env (fsAfter env ((jpgFilesOf listing).take i) fs)
              (imgPath name)).1) := by
  refine ⟨List.sorted_insertionSort strLe _, List.perm_insertionSort strLe _, ?_⟩
  have hne' : (jpgFilesOf listing).isEmpty = false := by
    cases h : jpgFilesOf listing with
    | nil => exact absurd h hne
    | cons a l => rfl
  obtain ⟨h1, h2, _, _, _⟩ := runLoop_spec env (jpgFilesOf listing).length
    (jpgFilesOf listing) 1 0 0 fs
  refine ⟨(runLoop env (jpgFilesOf listing).length (jpgFilesOf listing) 1 0 0 fs).1,
    (runLoop env (jpgFilesOf listing).length (jpgFilesOf listing) 1 0 0 fs).2.1,
    (runLoop env (jpgFilesOf listing).length (jpgFilesOf listing) 1 0 0 fs).2.2.1,
    (runLoop env (jpgFilesOf listing).length (jpgFilesOf listing) 1 0 0 fs).2.2.2,
    ?_, h1, by omega, ?_⟩
  · simp only [mainRun, Bool.not_true, if_false, hne', Bool.false_eq_true]
  · intro i line name hl hn
    have := runLoop_lines env (jpgFilesOf listing).length (jpgFilesOf listing)
      1 0 0 fs i line name hl hn
    have harith : 1 + i = i + 1 := by omega
    rw [harith] at this
    exact this

/-- Witness for C5 on a mixed three-entry listing: two matches, of which
one file exists (succeeds) and one is missing (fails). -/
theorem batch_processing_witness :
    List.Sorted strLe (jpgFilesOf ["b_hu_y.jpg", "a_hu_x.jpg", "noise.txt"]) ∧
    (jpgFilesOf ["b_hu_y.jpg", "a_hu_x.jpg", "noise.txt"]).Perm
      (["b_hu_y.jpg", "a_hu_x.jpg", "noise.txt"].filter matchesPattern) ∧
    ∃ body succ failed fs',
      mainRun envOk true ["b_hu_y.jpg", "a_hu_x.jpg", "noise.txt"] fsA =
        (OutLine.found
            (jpgFilesOf ["b_hu_y.jpg", "a_hu_x.jpg", "noise.txt"]).length :: body
            ++ [OutLine.summary succ
                (jpgFilesOf ["b_hu_y.jpg", "a_hu_x.jpg", "noise.txt"]).length
                failed], fs') ∧
      body.length = (jpgFilesOf ["b_hu_y.jpg", "a_hu_x.jpg", "noise.txt"]).length ∧
      succ + failed
        = (jpgFilesOf ["b_hu_y.jpg", "a_hu_x.jpg", "noise.txt"]).length ∧
      (∀ i line name, body.get? i = some line →
         (jpgFilesOf ["b_hu_y.jpg", "a_hu_x.jpg", "noise.txt"]).get? i
           = some name →
         line = mkLine (i + 1)
           (jpgFilesOf ["b_hu_y.jpg", "a_hu_x.jpg", "noise.txt"]).length name
           (inject_exif envOk
              (fsAfter envOk
                ((jpgFilesOf ["b_hu_y.jpg", "a_hu_x.jpg", "noise.txt"]).take i)
                fsA)
              (imgPath name)).1) :=
  batch_processing envOk ["b_hu_y.jpg", "a_hu_x.jpg", "noise.txt"] fsA
    (by decide)

/-- C6: a missing target directory is reported with a single error line
and nothing is processed; an existing directory with no matching
filenames is reported with a single distinct "no images" line and
nothing is processed — in both cases the filesystem is untouched. -/
theorem terminal_reports (env : Env) (listing : List String) (fs : FS) :
    mainRun env false listing fs = ([OutLine.dirNotFound PHOTOS_DIR], fs) ∧
    (listing.filter matchesPattern = [] →
       mainRun env true listing fs = ([OutLine.noImages PHOTOS_DIR], fs)) ∧
    OutLine.dirNotFound PHOTOS_DIR ≠ OutLine.noImages PHOTOS_DIR := by
  refine ⟨rfl, ?_, by decide⟩
  intro h
  simp [mainRun, jpgFilesOf, h]

/-- Witness for C6: a listing whose only entry does not match the
pattern yields the "no images" report over the unchanged filesystem. -/
theorem terminal_reports_witness :
    mainRun envOk false ["readme.txt"] fsA
      = ([OutLine.dirNotFound PHOTOS_DIR], fsA) ∧
    mainRun envOk true ["readme.txt"] fsA
      = ([OutLine.noImages PHOTOS_DIR], fsA) := by
  have h := terminal_reports envOk ["readme.txt"] fsA
  exact ⟨h.1, h.2.1 (by rfl)⟩

/-- C8: every loop iteration increments exactly one of the two
counters, the counters never decrease, and the success and failure
counts in the printed summary add up to the number of matched files. -/
theorem counters_invariant (env : Env) (total : Nat) (l : List String)
    (idx succ failed : Nat) (fs : FS) (listing : List String) :
    succ + failed + l.length
        = (runLoop env total l idx succ failed fs).2.1 +
          (runLoop env total l idx succ failed fs).2.2.1 ∧
    succ ≤ (runLoop env total l idx succ failed fs).2.1 ∧
    failed ≤ (runLoop env total l idx succ failed fs).2.2.1 ∧
    (∀ nm rest, l = nm :: rest →
       ∃ line succ1 failed1,
         ((succ1 = succ + 1 ∧ failed1 = failed) ∨
          (succ1 = succ ∧ failed1 = failed + 1)) ∧
         runLoop env total l idx succ failed fs =
           (line :: (runLoop env total rest (idx + 1) succ1 failed1
                (inject_exif env fs (imgPath nm)).2).1,
            runLoop env total rest (idx + 1) succ1 failed1
                (inject_exif env fs (imgPath nm)).2 |>.2)) ∧
    (∀ lines fs' s n f, mainRun env true listing fs = (lines, fs') →
       OutLine.summary s n f ∈ lines → s + f = n) := by
  obtain ⟨_, h2, h3, h4, _⟩ := runLoop_spec env total l idx succ failed fs
  refine ⟨by omega, h3, h4, ?_, ?_⟩
  · rintro nm rest rfl
    by_cases hr : (inject_exif env fs (imgPath nm)).1.1 = true
    · refine ⟨OutLine.fileOk idx total nm (inject_exif env fs (imgPath nm)).1.2,
        succ + 1, failed, Or.inl ⟨rfl, rfl⟩, ?_⟩
      simp only [runLoop, hr, if_true]
    · refine ⟨OutLine.fileErr idx total nm (inject_exif env fs (imgPath nm)).1.2,
        succ, failed + 1, Or.inr ⟨rfl, rfl⟩, ?_⟩
      simp only [runLoop, hr, if_false, Bool.false_eq_true]
  · intro lines fs' s n f hmain hmem
    by_cases hje : (jpgFilesOf listing).isEmpty = true
    · have : mainRun env true listing fs = ([OutLine.noImages PHOTOS_DIR], fs) := by
        simp only [mainRun, Bool.not_true, if_false, hje, if_true,
          Bool.false_eq_true]
      rw [this] at hmain
      injection hmain with hl _
      subst hl
      simp at hmem
    · have hje' : (jpgFilesOf listing).isEmpty = false := by
        simpa using hje
      obtain ⟨g1, g2, _, _, g5⟩ := runLoop_spec env (jpgFilesOf listing).length
        (jpgFilesOf listing) 1 0 0 fs
      have hrun : mainRun env true listing fs =
          (OutLine.found (jpgFilesOf listing).length ::
             (runLoop env (jpgFilesOf listing).length (jpgFilesOf listing)
                1 0 0 fs).1
             ++ [OutLine.summary
                  (runLoop env (jpgFilesOf listing).length (jpgFilesOf listing)
                    1 0 0 fs).2.1
                  (jpgFilesOf listing).length
                  (runLoop env (jpgFilesOf listing).length (jpgFilesOf listing)
                    1 0 0 fs).2.2.1],
           (runLoop env (jpgFilesOf listing).length (jpgFilesOf listing)
              1 0 0 fs).2.2.2) := by
        simp only [mainRun, Bool.not_true, if_false, hje', Bool.false_eq_true]
      rw [hrun] at hmain
      injection hmain with hl _
      subst hl
      rcases List.mem_cons.mp hmem with h | h
      · exact absurd h (by simp)
      rcases List.mem_append.mp h with h | h
      · rcases List.mem_iff_get?.mp h with ⟨i, hi⟩
        obtain ⟨hlt, _⟩ := List.get?_eq_some.mp hi
        have hilt : i < (jpgFilesOf listing).length := by
          rw [g1] at hlt
          exact hlt
        have hname : (jpgFilesOf listing).get? i
            = some ((jpgFilesOf listing).get ⟨i, hilt⟩) :=
          List.get?_eq_some.mpr ⟨hilt, rfl⟩
        rcases g5 i _ _ hi hname with ⟨id, hid⟩ | ⟨err, herr⟩
        · exact absurd hid (by simp)
        · exact absurd herr (by simp)
      · simp only [List.mem_singleton] at h
        injection h with hs hn hf
        subst hs
        subst hn
        subst hf
        omega

/-- Witness for C8: the first iteration of a one-file loop increments
exactly one counter, and the mixed three-entry run's summary counts add
up to its match count. -/
theorem counters_invariant_witness :
    (∃ line succ1 failed1,
       ((succ1 = 1 ∧ failed1 = 0) ∨ (succ1 = 0 ∧ failed1 = 1)) ∧
       runLoop envOk 1 ["a_hu_x.jpg"] 1 0 0 fsA =
         (line :: (runLoop envOk 1 [] 2 succ1 failed1
              (inject_exif envOk fsA (imgPath "a_hu_x.jpg")).2).1,
          runLoop envOk 1 [] 2 succ1 failed1
              (inject_exif envOk fsA (imgPath "a_hu_x.jpg")).2 |>.2)) ∧
    1 + 1 = 2 := by
  have h := counters_invariant envOk 1 ["a_hu_x.jpg"] 1 0 0 fsA
    ["b_hu_y.jpg", "a_hu_x.jpg", "noise.txt"]
  refine ⟨h.2.2.2.1 "a_hu_x.jpg" [] rfl, ?_⟩
  exact h.2.2.2.2
    (mainRun envOk true ["b_hu_y.jpg", "a_hu_x.jpg", "noise.txt"] fsA).1
    (mainRun envOk true ["b_hu_y.jpg", "a_hu_x.jpg", "noise.txt"] fsA).2
    1 2 1 rfl (by decide)
